import Mathlib

/-!
Verification of the bufo-bot matching pipeline.

The definitions below are a shallow embedding of the Python sources of the
`find-bufo` repository (`bot/src/bufo_bot/matcher.py`, `jetstream.py`,
`main.py`).  Pure functions become Lean functions; the stateful run loop
becomes an explicit state-passing step function; fallible collaborator calls
are `Except` values supplied by an environment record.  Strings are Lean
strings; Python `str.lower` is modelled by the ASCII `Char.toLower`, which
agrees with Python on the basic-latin range that the letter-only tokenizer
keeps.
-/

namespace BufoBot

/-- A character counts for the tokenizer exactly when it is-a lowercase ASCII
letter: this is the character class of the regex `[a-z]+` used in
`matcher.py`. -/
def isLowerAlpha (c : Char) : Bool :=
  'a' ≤ c && c ≤ 'z'

/-- The spec's wording of the tokenizer, taken literally: scan for the
maximal run of letters at each letter position and skip separators
(`maximal munch`).  This is the comparison point for the tokenization
claim; it is proved equal to `findTokens` below. -/
def maximalRuns : List Char → List (List Char)
  | [] => []
  | c :: cs =>
    if isLowerAlpha c then
      (c :: cs.takeWhile isLowerAlpha) :: maximalRuns (cs.dropWhile isLowerAlpha)
    else
      maximalRuns cs
termination_by l => l.length
decreasing_by
  · have h : (cs.dropWhile isLowerAlpha).length ≤ cs.length :=
      (List.dropWhile_sublist isLowerAlpha).length_le
    simp only [List.length_cons]
    omega
  · simp only [List.length_cons]
    omega

/-- The segments of a character list between its non-letter characters; a
separator character is dropped, and adjacent, leading or trailing separators
leave empty segments behind. -/
def splitRuns : List Char → List (List Char)
  | [] => [[]]
  | c :: rest =>
    if isLowerAlpha c then
      match splitRuns rest with
      | [] => [[c]]
      | t :: ts => (c :: t) :: ts
    else
      [] :: splitRuns rest

/-- `re.findall(r"[a-z]+", s)`: the maximal runs of lowercase ASCII letters
of a character list, in order; every non-letter character separates runs and
is dropped.  Computed by cutting at every separator and discarding the empty
segments. -/
def findTokens (l : List Char) : List (List Char) :=
  (splitRuns l).filter fun t => !t.isEmpty

/-- `re.findall(r"[a-z]+", post_text.lower())` — the normalization applied by
`BufoMatcher.find_match` (matcher.py:52) to post text. -/
def tokenize (s : String) : List String :=
  (findTokens (s.data.map Char.toLower)).map List.asString

/-- `filename.rsplit(".", 1)[0]` (matcher.py:19): everything before the last
dot, or the whole string when there is no dot. -/
def stripExt (l : List Char) : List Char :=
  match l.reverse.dropWhile (fun c => !(c = '.' : Bool)) with
  | [] => l
  | _ :: pre => pre.reverse

/-- `re.sub(r"[-_]", " ", name)` (matcher.py:21), character by character. -/
def sepToSpace (c : Char) : Char :=
  if c = '-' || c = '_' then ' ' else c

/-- The word list of matcher.py:19-22 before the leading-"bufo" strip:
drop the extension, replace `-`/`_` by spaces, lowercase, keep the maximal
letter runs. -/
def raw_words (filename : String) : List String :=
  (findTokens (((stripExt filename.data).map sepToSpace).map Char.toLower)).map
    List.asString

/-- `extract_phrase` (matcher.py:16-26): the raw words with one leading
`"bufo"` token stripped when present. -/
def extract_phrase (filename : String) : List String :=
  match raw_words filename with
  | [] => []
  | w :: rest => if w = "bufo" then rest else w :: rest

/-- character-list version of Python `" ".join`. -/
def joinSpaceC : List (List Char) → List Char
  | [] => []
  | [t] => t
  | t :: ts => t ++ ' ' :: joinSpaceC ts

/-- a bufo with name and URL (matcher.py:29-33). -/
structure Bufo where
  name : String
  url : String
deriving DecidableEq, Repr

/-- a matched bufo image (matcher.py:8-13). -/
structure BufoMatch where
  name : String
  url : String
  phrase : String
deriving DecidableEq, Repr

/-- the matcher state built by `BufoMatcher.__init__`: the minimum word count
and the precomputed `(bufo, phrase)` list. -/
structure BufoMatcher where
  min_words : Nat
  bufos : List (Bufo × List String)
deriving DecidableEq, Repr

/-- `BufoMatcher.__init__` (matcher.py:39-47): keep, in catalog order, each
bufo paired with its extracted phrase, dropping those whose phrase is shorter
than `min_words`. -/
def BufoMatcher.init (bufos : List Bufo) (min_words : Nat) : BufoMatcher :=
  { min_words := min_words
    bufos := bufos.filterMap fun bufo =>
      let phrase := extract_phrase bufo.name
      if min_words ≤ phrase.length then some (bufo, phrase) else none }

/-- Python `" ".join(ws)` (matcher.py:62). -/
def joinSpace : List String → String
  | [] => ""
  | [w] => w
  | w :: ws => w ++ " " ++ joinSpace ws

/-- `BufoMatcher._contains_phrase` (matcher.py:67-73): some window of
`post_words` of the phrase length equals the phrase. -/
def contains_phrase (post_words phrase : List String) : Bool :=
  let k := phrase.length
  (List.range (post_words.length - k + 1)).any fun i =>
    ((post_words.drop i).take k) == phrase

/-- `BufoMatcher.find_match` (matcher.py:49-65): tokenize the post text,
reject short posts, and return the first indexed bufo whose phrase occurs as
a contiguous window of the post words. -/
def BufoMatcher.find_match (m : BufoMatcher) (post_text : String) :
    Option BufoMatch :=
  let post_words := tokenize post_text
  if post_words.length < m.min_words then none
  else
    match m.bufos.find? (fun bp => contains_phrase post_words bp.2) with
    | some (bufo, phrase) =>
        some { name := bufo.name, url := bufo.url, phrase := joinSpace phrase }
    | none => none

/-! ## Stream consumer (jetstream.py) -/

/-- a bluesky post from the firehose (jetstream.py:11-20). -/
structure Post where
  did : String
  rkey : String
  text : String
deriving DecidableEq, Repr

/-- `Post.uri` (jetstream.py:18-20). -/
def Post.uri (p : Post) : String :=
  "at://" ++ p.did ++ "/app.bsky.feed.post/" ++ p.rkey

/-- the fields of a jetstream `record` object that the consumer reads.
Leaf fields the code only compares against or defaults (`text`, and below
`kind`, `operation`, `did`, `rkey`) never raise in the source whatever their
JSON type, so they are modelled as present-string or absent. -/
structure RecordData where
  text : Option String
deriving DecidableEq, Repr

/-- the `record` value inside a commit object as the duck-typed access sees
it: the key may be absent (`commit.get("record", {})` substitutes `{}`),
hold a JSON object, or hold a non-object value — including `null`, which
`.get` does NOT replace by the default — on which `record.get("text", "")`
raises `AttributeError`. -/
inductive RecordVal
  | absent
  | notObj
  | obj (r : RecordData)
deriving DecidableEq, Repr

/-- the fields of a jetstream `commit` object.  The wire format carries a
`collection` field; `stream_posts` never reads it (the subscription URL
already filters to the posts collection). -/
structure CommitData where
  operation : Option String
  rkey : Option String
  collection : Option String
  record : RecordVal
deriving DecidableEq, Repr

/-- the `commit` value inside a message object: absent (`data.get("commit",
{})` substitutes `{}`), a JSON object, or a non-object value (including
`null`) on which `commit.get(...)` raises `AttributeError`. -/
inductive CommitVal
  | absent
  | notObj
  | obj (c : CommitData)
deriving DecidableEq, Repr

/-- a parsed jetstream message object (the fields `stream_posts` reads). -/
structure MessageData where
  kind : Option String
  commit : CommitVal
  did : Option String
deriving DecidableEq, Repr

/-- `{}` as produced by `data.get("commit", {})` when the key is absent. -/
def emptyCommit : CommitData :=
  { operation := none, rkey := none, collection := none, record := .absent }

/-- `{}` as produced by `commit.get("record", {})` when the key is absent. -/
def emptyRecord : RecordData :=
  { text := none }

/-- `data.get("commit", {})` followed by attribute access: an absent key
yields the `{}` default, an object is used as is, and a non-object value
(the key present as `null`, a number, ...) makes the next `.get` raise —
modelled as `none`. -/
def CommitVal.asObj : CommitVal → Option CommitData
  | .absent => some emptyCommit
  | .notObj => none
  | .obj c => some c

/-- `commit.get("record", {})` followed by attribute access, as in
`CommitVal.asObj`. -/
def RecordVal.asObj : RecordVal → Option RecordData
  | .absent => some emptyRecord
  | .notObj => none
  | .obj r => some r

/-- a raw websocket text frame after `json.loads`: a JSON parse failure
(`json.JSONDecodeError`), a successfully parsed non-object value (`42`,
`null`, a string, a list — `data.get` raises `AttributeError` on all of
them), or a parsed JSON object. -/
inductive RawMessage
  | decodeError (e : String)
  | notObj
  | obj (d : MessageData)
deriving DecidableEq, Repr

/-- what one pass of the inner read loop does with one frame: `skip` is a
`continue` (either the filter rejected the message or the
`json.JSONDecodeError` handler caught the parse failure), `accept` is a
`yield`, and `raise` is an uncaught exception — the inner `except` catches
only `json.JSONDecodeError`, so an `AttributeError` escapes the inner loop
and reaches the outer reconnect handler. -/
inductive MessageStep
  | skip
  | accept (p : Post)
  | raise
deriving DecidableEq, Repr

/-- the per-message body of `stream_posts` (jetstream.py:44-63): a parse
failure is skipped in place; a parsed frame is accepted only when it is a
commit of operation `create` whose record carries non-empty text; and a
frame whose top level, `commit` field or `record` field holds a non-object
value raises out of the inner loop. -/
def processMessage : RawMessage → MessageStep
  | .decodeError _ => .skip
  | .notObj => .raise
  | .obj data =>
    if data.kind ≠ some "commit" then .skip
    else
      match data.commit.asObj with
      | none => .raise
      | some commit =>
        if commit.operation ≠ some "create" then .skip
        else
          match commit.record.asObj with
          | none => .raise
          | some record =>
            let text := record.text.getD ""
            if text = "" then .skip
            else .accept
              { did := data.did.getD "", rkey := commit.rkey.getD "",
                text := text }

/-- the posts accepted from the frames of one connection, in order: a `skip`
continues with the next frame, an `accept` yields, and a `raise` abandons
the rest of the connection's frames (the exception lands in the outer
handler, which logs, sleeps 5 seconds and reconnects — the remaining frames
of that connection are lost). -/
def stream_accepted : List RawMessage → List Post
  | [] => []
  | msg :: rest =>
    match processMessage msg with
    | .skip => stream_accepted rest
    | .accept p => p :: stream_accepted rest
    | .raise => []

/-- `JetstreamClient.url` (jetstream.py:29-31): the subscription requests only
the posts collection. -/
def subscribe_url (endpoint : String) : String :=
  "wss://" ++ endpoint ++ "/subscribe?wantedCollections=app.bsky.feed.post"

/-- the reconnect states of `stream_posts` (jetstream.py:33-66). -/
inductive StreamState
  | disconnected
  | connecting
  | connected
deriving DecidableEq, Repr

/-- `time.sleep(5)` (jetstream.py:66): the fixed delay, in seconds, spent in
`disconnected` before reconnecting. -/
def reconnect_delay_s : Nat := 5

/-- the transition relation of the `stream_posts` loop.  `reconnect` is the
head of the outer `while True` after the 5-second sleep; `connect_ok` /
`connect_fail` are `connect_ws` succeeding or raising; `recv` is one pass of
the inner loop on a frame it handles in place (accepted, filtered, or a
caught parse failure); `recv_raise` is a frame whose processing raises out
of the inner loop (the `AttributeError` path); `recv_fail` is a transport
error escaping the inner `try`.  No transition leaves the loop: the
generator has no return or break. -/
inductive stream_step : StreamState → StreamState → Prop
  | reconnect : stream_step .disconnected .connecting
  | connect_ok : stream_step .connecting .connected
  | connect_fail : stream_step .connecting .disconnected
  | recv (m : RawMessage) (h : ¬ processMessage m = .raise) :
      stream_step .connected .connected
  | recv_raise (m : RawMessage) (h : processMessage m = .raise) :
      stream_step .connected .disconnected
  | recv_fail : stream_step .connected .disconnected

/-- an explicit infinite execution of the stream machine, used to exhibit
that runs never get stuck: reconnect, connect, then receive forever. -/
def stream_run : Nat → StreamState
  | 0 => .disconnected
  | 1 => .connecting
  | _ + 2 => .connected

/-! ## Orchestrator and cooldown (main.py) -/

/-- `s.replace("-", " ")`, character by character. -/
def hyphenToSpace (s : String) : String :=
  ⟨s.data.map fun c => if c = '-' then ' ' else c⟩

/-- `s.replace(" ", "-")`, character by character. -/
def spaceToHyphen (s : String) : String :=
  ⟨s.data.map fun c => if c = ' ' then '-' else c⟩

/-- the alt text the publish path attaches to the image (main.py:120):
the image name with hyphens replaced by spaces. -/
def publish_alt (name : String) : String :=
  hyphenToSpace name

/-- an embedded image of an authored post, as read back by the refresh
(main.py:46-50): only its alt text is consulted. -/
structure FeedImage where
  alt : String
deriving DecidableEq, Repr

/-- the `embed.media.images` of an authored post; `none` models a post
without an image embed (the `hasattr` checks of main.py:43-45). -/
structure FeedEmbed where
  images : List FeedImage
deriving DecidableEq, Repr

/-- the `created_at` of an authored post as `get_recent_bufo_names` sees it:
not a string at all, an unparseable string (`ValueError` → skip the post), or
a parsed timestamp. -/
inductive CreatedAt
  | notStr
  | badStr
  | ts (t : Int)
deriving DecidableEq, Repr

/-- one post of the author feed consumed by the refresh. -/
structure FeedPost where
  created : CreatedAt
  embed : Option FeedEmbed
deriving DecidableEq, Repr

/-- the candidate filenames one feed post contributes (main.py:42-50): for
each embedded image with non-empty alt text, the alt with spaces re-hyphened
plus each of the two guessed extensions. -/
def collect_alt_candidates (p : FeedPost) : List String :=
  match p.embed with
  | none => []
  | some e =>
    e.images.foldr
      (fun img acc =>
        if img.alt ≠ "" then
          (spaceToHyphen img.alt ++ ".png") :: (spaceToHyphen img.alt ++ ".gif") :: acc
        else acc)
      []

/-- `get_recent_bufo_names` (main.py:18-56) over an already-fetched feed:
walk the newest-first feed, stop at the first post with a parsed timestamp
older than the cutoff, skip posts whose timestamp string fails to parse, and
collect the reconstructed candidate filenames of every other post. -/
def get_recent_bufo_names : List FeedPost → Int → List String
  | [], _ => []
  | p :: rest, cutoff =>
    match p.created with
    | .badStr => get_recent_bufo_names rest cutoff
    | .ts t =>
      if t < cutoff then []
      else collect_alt_candidates p ++ get_recent_bufo_names rest cutoff
    | .notStr => collect_alt_candidates p ++ get_recent_bufo_names rest cutoff

deriving instance DecidableEq for Except

/-- outcomes the four external publish stages can have; each stage is an
opaque collaborator call that either succeeds or raises. -/
structure PublishEnv where
  fetch_image : Except String Unit
  upload_blob : Except String Unit
  resolve_post : Except String Unit
  send_post : Except String Unit
deriving DecidableEq, Repr

/-- how far `quote_post_with_bufo` got before a stage failed (or that it
published, with the alt text it attached). -/
inductive PublishResult
  | published (alt : String)
  | failedFetch (e : String)
  | failedUpload (e : String)
  | failedResolve (e : String)
  | failedSend (e : String)
deriving DecidableEq, Repr

/-- `quote_post_with_bufo` (main.py:79-131): every stage is wrapped in
`try/except` that logs and returns, so no collaborator failure propagates —
the `Except.error` branch of the return type is never produced. -/
def quote_post_with_bufo (env : PublishEnv) (m : BufoMatch) :
    Except String PublishResult :=
  match env.fetch_image with
  | .error e => .ok (.failedFetch e)
  | .ok _ =>
    match env.upload_blob with
    | .error e => .ok (.failedUpload e)
    | .ok _ =>
      match env.resolve_post with
      | .error e => .ok (.failedResolve e)
      | .ok _ =>
        let alt := publish_alt m.name
        match env.send_post with
        | .error e => .ok (.failedSend e)
        | .ok _ => .ok (.published alt)

/-- the orchestrator state threaded through the run loop (main.py:156-157):
the local cooldown set and the time of its last refresh. -/
structure BotState where
  recent_bufos : Finset String
  last_refresh : Int
deriving DecidableEq

/-- what one loop iteration did with a post. -/
inductive BotAction
  | noMatch
  | postingDisabled
  | cooldownSkip (name : String)
  | publish (name : String) (r : Except String PublishResult)
deriving DecidableEq

/-- the per-post body of `run_bot` (main.py:160-181): match, honor the
posting flag, refresh the cooldown cache when more than 300 seconds have
passed, suppress names on cooldown, otherwise publish and immediately record
the name in the local set.  `now` is the current timestamp and `rr` the set a
refresh would fetch. -/
def process_post (enabled : Bool) (matcher : BufoMatcher) (env : PublishEnv)
    (st : BotState) (post : Post) (now : Int) (rr : Finset String) :
    BotState × BotAction :=
  match matcher.find_match post.text with
  | none => (st, .noMatch)
  | some m =>
    if !enabled then (st, .postingDisabled)
    else
      let refreshed := decide (300 < now - st.last_refresh)
      let recent := if refreshed then rr else st.recent_bufos
      let lastR := if refreshed then now else st.last_refresh
      if m.name ∈ recent then
        ({ recent_bufos := recent, last_refresh := lastR }, .cooldownSkip m.name)
      else
        ({ recent_bufos := insert m.name recent, last_refresh := lastR },
          .publish m.name (quote_post_with_bufo env m))

/-- one event arriving at the run loop: the post, the clock reading, and the
set a refresh would fetch at that moment. -/
structure BotEvent where
  post : Post
  now : Int
  rr : Finset String

/-- folding the run loop over a sequence of events. -/
def run_events (enabled : Bool) (matcher : BufoMatcher) (env : PublishEnv)
    (st : BotState) (events : List BotEvent) : BotState :=
  events.foldl
    (fun s ev => (process_post enabled matcher env s ev.post ev.now ev.rr).1) st

/-! ## Helper lemmas -/

theorem toLower_of_alpha (c : Char) (h : isLowerAlpha c = true) :
    Char.toLower c = c := by
  simp only [isLowerAlpha, Bool.and_eq_true, decide_eq_true_eq] at h
  have h97 : 97 ≤ c.toNat := by
    have h1 := h.1
    rw [Char.le_def, UInt32.le_def, BitVec.le_def] at h1
    simpa [Char.toNat, UInt32.toNat] using h1
  unfold Char.toLower
  simp only [ge_iff_le]
  rw [if_neg]
  omega

theorem sepToSpace_of_alpha (c : Char) (h : isLowerAlpha c = true) :
    sepToSpace c = c := by
  have h1 : ¬ c = '-' := by rintro rfl; exact absurd h (by decide)
  have h2 : ¬ c = '_' := by rintro rfl; exact absurd h (by decide)
  simp [sepToSpace, h1, h2]

theorem map_id_of_fixed {f : Char → Char} :
    ∀ l : List Char, (∀ c ∈ l, f c = c) → l.map f = l := by
  intro l h
  induction l with
  | nil => rfl
  | cons c cs ih =>
    simp only [List.map_cons, h c (List.mem_cons_self c cs),
      ih fun x hx => h x (List.mem_cons_of_mem c hx)]

theorem takeWhile_append_all {p : Char → Bool} :
    ∀ (t l : List Char), (∀ c ∈ t, p c = true) →
      (t ++ l).takeWhile p = t ++ l.takeWhile p := by
  intro t l h
  induction t with
  | nil => rfl
  | cons c cs ih =>
    simp only [List.cons_append,
      List.takeWhile_cons_of_pos (h c (List.mem_cons_self c cs)),
      ih fun x hx => h x (List.mem_cons_of_mem c hx)]

theorem dropWhile_append_all {p : Char → Bool} :
    ∀ (t l : List Char), (∀ c ∈ t, p c = true) →
      (t ++ l).dropWhile p = l.dropWhile p := by
  intro t l h
  induction t with
  | nil => rfl
  | cons c cs ih =>
    simp only [List.cons_append,
      List.dropWhile_cons_of_pos (h c (List.mem_cons_self c cs)),
      ih fun x hx => h x (List.mem_cons_of_mem c hx)]

theorem takeWhile_nil_of_head {p : Char → Bool} (l : List Char)
    (h : ∀ c, l.head? = some c → p c = false) : l.takeWhile p = [] := by
  cases l with
  | nil => rfl
  | cons c cs =>
    have := h c rfl
    simp [List.takeWhile_cons, this]

theorem dropWhile_self_of_head {p : Char → Bool} (l : List Char)
    (h : ∀ c, l.head? = some c → p c = false) : l.dropWhile p = l := by
  cases l with
  | nil => rfl
  | cons c cs =>
    have := h c rfl
    simp [List.dropWhile_cons, this]

theorem dropWhile_head_false {p : Char → Bool} :
    ∀ (l : List Char) (d : Char) (r : List Char),
      l.dropWhile p = d :: r → p d = false := by
  intro l
  induction l with
  | nil => intro d r h; cases h
  | cons c cs ih =>
    intro d r h
    by_cases hc : p c
    · rw [List.dropWhile_cons_of_pos hc] at h
      exact ih d r h
    · rw [List.dropWhile_cons_of_neg hc] at h
      cases h
      simpa using hc

theorem maximalRuns_nil : maximalRuns [] = [] := by
  rw [maximalRuns]

theorem maximalRuns_cons_neg (c : Char) (l : List Char)
    (h : isLowerAlpha c = false) : maximalRuns (c :: l) = maximalRuns l := by
  rw [maximalRuns]
  simp [h]

theorem maximalRuns_cons_pos (c : Char) (l : List Char)
    (h : isLowerAlpha c = true) :
    maximalRuns (c :: l) =
      (c :: l.takeWhile isLowerAlpha) :: maximalRuns (l.dropWhile isLowerAlpha) := by
  rw [maximalRuns]
  simp [h]

theorem maximalRuns_tokens :
    ∀ l : List Char, ∀ t ∈ maximalRuns l,
      t ≠ [] ∧ ∀ c ∈ t, isLowerAlpha c = true := by
  intro l
  induction l using maximalRuns.induct with
  | case1 => intro t ht; rw [maximalRuns_nil] at ht; cases ht
  | case2 c cs hc ih =>
    intro t ht
    rw [maximalRuns_cons_pos c cs hc] at ht
    rcases List.mem_cons.mp ht with h | h
    · subst h
      refine ⟨by simp, ?_⟩
      intro x hx
      rcases List.mem_cons.mp hx with h | h
      · subst h; exact hc
      · exact List.mem_takeWhile_imp h
    · exact ih t h
  | case3 c cs hc ih =>
    intro t ht
    rw [maximalRuns_cons_neg c cs (by simpa using hc)] at ht
    exact ih t ht

theorem maximalRuns_run_append (t l : List Char) (ht : t ≠ [])
    (ha : ∀ c ∈ t, isLowerAlpha c = true)
    (hl : ∀ c, l.head? = some c → isLowerAlpha c = false) :
    maximalRuns (t ++ l) = t :: maximalRuns l := by
  cases t with
  | nil => exact absurd rfl ht
  | cons c cs =>
    have hc : isLowerAlpha c = true := ha c (List.mem_cons_self c cs)
    have hcs : ∀ x ∈ cs, isLowerAlpha x = true :=
      fun x hx => ha x (List.mem_cons_of_mem c hx)
    rw [List.cons_append, maximalRuns_cons_pos c (cs ++ l) hc,
      takeWhile_append_all cs l hcs, takeWhile_nil_of_head l hl,
      dropWhile_append_all cs l hcs, dropWhile_self_of_head l hl,
      List.append_nil]

theorem maximalRuns_all_alpha (t : List Char) (ht : t ≠ [])
    (ha : ∀ c ∈ t, isLowerAlpha c = true) : maximalRuns t = [t] := by
  have h := maximalRuns_run_append t [] ht ha (by intro c hc; cases hc)
  simpa [maximalRuns_nil] using h

theorem maximalRuns_joinSpaceC :
    ∀ ts : List (List Char),
      (∀ t ∈ ts, t ≠ [] ∧ ∀ c ∈ t, isLowerAlpha c = true) →
      maximalRuns (joinSpaceC ts) = ts := by
  intro ts
  induction ts with
  | nil => intro _; exact maximalRuns_nil
  | cons t ts ih =>
    intro h
    cases ts with
    | nil =>
      have ht := h t (List.mem_cons_self t [])
      simpa [joinSpaceC] using maximalRuns_all_alpha t ht.1 ht.2
    | cons t' ts' =>
      have ht := h t (List.mem_cons_self t _)
      have hrest : ∀ x ∈ t' :: ts', x ≠ [] ∧ ∀ c ∈ x, isLowerAlpha c = true :=
        fun x hx => h x (List.mem_cons_of_mem t hx)
      show maximalRuns (t ++ ' ' :: joinSpaceC (t' :: ts')) = t :: t' :: ts'
      rw [maximalRuns_run_append t (' ' :: joinSpaceC (t' :: ts')) ht.1 ht.2
        (by intro c hc; cases hc; decide),
        maximalRuns_cons_neg ' ' _ (by decide), ih hrest]

theorem joinSpaceC_chars :
    ∀ ts : List (List Char),
      (∀ t ∈ ts, ∀ c ∈ t, isLowerAlpha c = true) →
      ∀ c ∈ joinSpaceC ts, isLowerAlpha c = true ∨ c = ' ' := by
  intro ts
  induction ts with
  | nil => intro _ c hc; cases hc
  | cons t ts ih =>
    intro h c hc
    cases ts with
    | nil =>
      exact Or.inl (h t (List.mem_cons_self t []) c (by simpa [joinSpaceC] using hc))
    | cons t' ts' =>
      rw [show joinSpaceC (t :: t' :: ts') = t ++ ' ' :: joinSpaceC (t' :: ts') from rfl]
        at hc
      rcases List.mem_append.mp hc with h1 | h1
      · exact Or.inl (h t (List.mem_cons_self t _) c h1)
      · rcases List.mem_cons.mp h1 with h2 | h2
        · exact Or.inr h2
        · exact ih (fun x hx => h x (List.mem_cons_of_mem t hx)) c h2

theorem data_joinSpace :
    ∀ ws : List String, (joinSpace ws).data = joinSpaceC (ws.map String.data) := by
  intro ws
  induction ws with
  | nil => rfl
  | cons w ws ih =>
    cases ws with
    | nil => rfl
    | cons w' ws' =>
      show (w ++ " " ++ joinSpace (w' :: ws')).data =
        w.data ++ ' ' :: joinSpaceC ((w' :: ws').map String.data)
      rw [String.data_append, String.data_append, ih, List.append_assoc]
      rfl

theorem stripExt_no_dot (l : List Char) (h : ∀ c ∈ l, ¬ c = '.') :
    stripExt l = l := by
  unfold stripExt
  have hd : l.reverse.dropWhile (fun c => !(c = '.' : Bool)) = [] := by
    rw [List.dropWhile_eq_nil_iff]
    intro a ha
    simpa using h a (List.mem_reverse.mp ha)
  rw [hd]

theorem find?_first {α : Type} (p : α → Bool) :
    ∀ (l : List α) (a : α), l.find? p = some a →
      p a = true ∧ ∃ pre post, l = pre ++ a :: post ∧ ∀ x ∈ pre, p x = false := by
  intro l
  induction l with
  | nil => intro a h; cases h
  | cons c cs ih =>
    intro a h
    by_cases hc : p c
    · rw [List.find?_cons_of_pos cs hc] at h
      cases h
      exact ⟨hc, [], cs, rfl, by intro x hx; cases hx⟩
    · rw [List.find?_cons_of_neg cs hc] at h
      obtain ⟨hp, pre, post, heq, hpre⟩ := ih a h
      refine ⟨hp, c :: pre, post, by rw [heq]; rfl, ?_⟩
      intro x hx
      rcases List.mem_cons.mp hx with h1 | h1
      · subst h1; simpa using hc
      · exact hpre x h1

theorem find?_exists_of_mem {α : Type} (p : α → Bool) (l : List α) (x : α)
    (hx : x ∈ l) (hp : p x = true) : ∃ a, l.find? p = some a :=
  Option.isSome_iff_exists.mp (List.find?_isSome.mpr ⟨x, hx, hp⟩)

theorem splitRuns_eq :
    ∀ l : List Char,
      splitRuns l = l.takeWhile isLowerAlpha ::
        (match l.dropWhile isLowerAlpha with
          | [] => []
          | _ :: r => splitRuns r) := by
  intro l
  induction l with
  | nil => rfl
  | cons c cs ih =>
    by_cases hc : isLowerAlpha c
    · rw [List.takeWhile_cons_of_pos hc, List.dropWhile_cons_of_pos hc]
      show (if isLowerAlpha c then
          match splitRuns cs with
          | [] => [[c]]
          | t :: ts => (c :: t) :: ts
        else [] :: splitRuns cs) = _
      rw [if_pos hc, ih]
    · rw [List.takeWhile_cons_of_neg hc, List.dropWhile_cons_of_neg hc]
      show (if isLowerAlpha c then
          match splitRuns cs with
          | [] => [[c]]
          | t :: ts => (c :: t) :: ts
        else [] :: splitRuns cs) = _
      rw [if_neg hc]

theorem maximalRuns_eq_spec :
    ∀ l : List Char,
      maximalRuns l = (splitRuns l).filter (fun t => !t.isEmpty) := by
  intro l
  induction l using maximalRuns.induct with
  | case1 => rw [maximalRuns_nil]; rfl
  | case2 c cs hc ih =>
    rw [maximalRuns_cons_pos c cs hc, splitRuns_eq (c :: cs),
      List.takeWhile_cons_of_pos hc, List.dropWhile_cons_of_pos hc]
    cases hdw : cs.dropWhile isLowerAlpha with
    | nil =>
      rw [hdw] at ih
      simp only [List.filter_cons, List.isEmpty_cons, Bool.not_false, if_pos]
      rw [ih]
      rfl
    | cons d r =>
      have hd : isLowerAlpha d = false := dropWhile_head_false cs d r hdw
      rw [hdw, maximalRuns_cons_neg d r hd] at ih
      rw [splitRuns_eq (d :: r), List.takeWhile_cons_of_neg (by simp [hd]),
        List.dropWhile_cons_of_neg (by simp [hd])] at ih
      simp only [List.filter_cons] at ih ⊢
      simp only [List.isEmpty_nil, Bool.not_true] at ih
      rw [if_neg (by simp)] at ih
      rw [if_pos (by simp)]
      rw [maximalRuns_cons_neg d r hd, ih]
  | case3 c cs hc ih =>
    have hcf : isLowerAlpha c = false := by simpa using hc
    rw [maximalRuns_cons_neg c cs hcf, splitRuns_eq (c :: cs),
      List.takeWhile_cons_of_neg (by simp [hcf]),
      List.dropWhile_cons_of_neg (by simp [hcf])]
    simp only [List.filter_cons]
    rw [if_neg (by simp)]
    exact ih

theorem findTokens_eq_maximalRuns (l : List Char) : findTokens l = maximalRuns l :=
  (maximalRuns_eq_spec l).symm

theorem findTokens_props (l : List Char) :
    ∀ t ∈ findTokens l, t ≠ [] ∧ ∀ c ∈ t, isLowerAlpha c = true := by
  rw [findTokens_eq_maximalRuns]
  exact maximalRuns_tokens l

theorem findTokens_joinSpaceC (ts : List (List Char))
    (h : ∀ t ∈ ts, t ≠ [] ∧ ∀ c ∈ t, isLowerAlpha c = true) :
    findTokens (joinSpaceC ts) = ts := by
  rw [findTokens_eq_maximalRuns]
  exact maximalRuns_joinSpaceC ts h

theorem asString_data (l : List Char) : (List.asString l).data = l :=
  rfl

theorem extract_phrase_nil (f : String) (h : raw_words f = []) :
    extract_phrase f = [] := by
  rw [extract_phrase, h]

theorem extract_phrase_cons (f w : String) (rest : List String)
    (h : raw_words f = w :: rest) :
    extract_phrase f = if w = "bufo" then rest else w :: rest := by
  rw [extract_phrase, h]

theorem find_match_eq (m : BufoMatcher) (post_text : String) :
    m.find_match post_text =
      if (tokenize post_text).length < m.min_words then none
      else
        match m.bufos.find?
            (fun bp => contains_phrase (tokenize post_text) bp.2) with
        | some (bufo, phrase) =>
            some { name := bufo.name, url := bufo.url, phrase := joinSpace phrase }
        | none => none :=
  rfl

theorem init_min_words (catalog : List Bufo) (mw : Nat) :
    (BufoMatcher.init catalog mw).min_words = mw :=
  rfl

theorem map_asString_data (ws : List String) :
    (ws.map String.data).map List.asString = ws := by
  rw [List.map_map]
  have h : ∀ w ∈ ws, (List.asString ∘ String.data) w = id w := by
    intro w _
    show List.asString w.data = w
    exact String.asString_toList w
  rw [List.map_congr_left h, List.map_id]

theorem raw_words_props (filename : String) :
    ∀ w ∈ raw_words filename,
      w.data ≠ [] ∧ ∀ c ∈ w.data, isLowerAlpha c = true := by
  intro w hw
  rw [raw_words, List.mem_map] at hw
  obtain ⟨t, ht, rfl⟩ := hw
  have h := findTokens_props _ t ht
  rw [asString_data]
  exact h

theorem extract_phrase_sub (filename : String) :
    ∀ w ∈ extract_phrase filename, w ∈ raw_words filename := by
  intro w hw
  cases hrw : raw_words filename with
  | nil => rw [extract_phrase_nil filename hrw] at hw; cases hw
  | cons x rest =>
    rw [extract_phrase_cons filename x rest hrw] at hw
    by_cases hx : x = "bufo"
    · rw [if_pos hx] at hw
      exact List.mem_cons_of_mem x hw
    · rw [if_neg hx] at hw
      exact hw

theorem raw_words_joinSpace (ws : List String)
    (h : ∀ w ∈ ws, w.data ≠ [] ∧ ∀ c ∈ w.data, isLowerAlpha c = true) :
    raw_words (joinSpace ws) = ws := by
  have hchars : ∀ c ∈ joinSpaceC (ws.map String.data),
      isLowerAlpha c = true ∨ c = ' ' := by
    apply joinSpaceC_chars
    intro t ht c hc
    rw [List.mem_map] at ht
    obtain ⟨w, hw, rfl⟩ := ht
    exact (h w hw).2 c hc
  have hdata : (joinSpace ws).data = joinSpaceC (ws.map String.data) :=
    data_joinSpace ws
  rw [raw_words, hdata]
  have hstrip : stripExt (joinSpaceC (ws.map String.data))
      = joinSpaceC (ws.map String.data) := by
    apply stripExt_no_dot
    intro c hc
    rcases hchars c hc with h1 | h1
    · rintro rfl; exact absurd h1 (by decide)
    · rw [h1]; decide
  rw [hstrip]
  have hsep : (joinSpaceC (ws.map String.data)).map sepToSpace
      = joinSpaceC (ws.map String.data) := by
    apply map_id_of_fixed
    intro c hc
    rcases hchars c hc with h1 | h1
    · exact sepToSpace_of_alpha c h1
    · rw [h1]; rfl
  rw [hsep]
  have hlower : (joinSpaceC (ws.map String.data)).map Char.toLower
      = joinSpaceC (ws.map String.data) := by
    apply map_id_of_fixed
    intro c hc
    rcases hchars c hc with h1 | h1
    · exact toLower_of_alpha c h1
    · rw [h1]; decide
  rw [hlower]
  have htoks : findTokens (joinSpaceC (ws.map String.data)) = ws.map String.data := by
    apply findTokens_joinSpaceC
    intro t ht
    rw [List.mem_map] at ht
    obtain ⟨w, hw, rfl⟩ := ht
    exact h w hw
  rw [htoks, map_asString_data]

/-! ## Claim theorems -/

/-- C1: if some indexed phrase occurs as a contiguous run of the post's
letter-only lowercase tokens and the post has at least `min_words` tokens,
then `find_match` returns a match whose `phrase` field is the space-joined
phrase of the first index entry — in catalog load order, the order the index
preserves — whose phrase occurs contiguously in the text; entries before it
in the index do not occur.  Precedence is index position, never phrase
length. -/
theorem c1_first_match_precedence (catalog : List Bufo) (mw : Nat)
    (text : String) (bp : Bufo × List String)
    (hmem : bp ∈ (BufoMatcher.init catalog mw).bufos)
    (hocc : contains_phrase (tokenize text) bp.2 = true)
    (hlen : mw ≤ (tokenize text).length) :
    ∃ b phrase pre post,
      (BufoMatcher.init catalog mw).find_match text
        = some { name := b.name, url := b.url, phrase := joinSpace phrase }
      ∧ (BufoMatcher.init catalog mw).bufos = pre ++ (b, phrase) :: post
      ∧ contains_phrase (tokenize text) phrase = true
      ∧ ∀ bp' ∈ pre, contains_phrase (tokenize text) bp'.2 = false := by
  obtain ⟨a, ha⟩ := find?_exists_of_mem
    (fun x => contains_phrase (tokenize text) x.2)
    (BufoMatcher.init catalog mw).bufos bp hmem hocc
  obtain ⟨hpa, pre, post, heq, hpre⟩ := find?_first _ _ a ha
  obtain ⟨b, phrase⟩ := a
  refine ⟨b, phrase, pre, post, ?_, heq, hpa, hpre⟩
  rw [find_match_eq, init_min_words, if_neg (Nat.not_lt.mpr hlen), ha]

/-- C1 witness: the end-to-end example of the spec, evaluated. -/
theorem c1_first_match_precedence_witness :
    ∃ b phrase pre post,
      (BufoMatcher.init
        [⟨"bufo-what-have-you-done", "u1"⟩, ⟨"bufo-cool-beans-man-yo", "u2"⟩]
        4).find_match "omg what have you done to this codebase"
        = some { name := b.name, url := b.url, phrase := joinSpace phrase }
      ∧ (BufoMatcher.init
          [⟨"bufo-what-have-you-done", "u1"⟩, ⟨"bufo-cool-beans-man-yo", "u2"⟩]
          4).bufos = pre ++ (b, phrase) :: post
      ∧ contains_phrase
          (tokenize "omg what have you done to this codebase") phrase = true
      ∧ ∀ bp' ∈ pre,
          contains_phrase
            (tokenize "omg what have you done to this codebase") bp'.2 = false :=
  c1_first_match_precedence
    [⟨"bufo-what-have-you-done", "u1"⟩, ⟨"bufo-cool-beans-man-yo", "u2"⟩] 4
    "omg what have you done to this codebase"
    ⟨⟨"bufo-what-have-you-done", "u1"⟩, ["what", "have", "you", "done"]⟩
    (by decide) (by decide) (by decide)

/-- C2 counterexample: the claim says the fragment `"v2"` contributes no
token at all; on the code it contributes the single token `"v"` (the digit
separates and is dropped, the letter stays). -/
theorem c2_counterexample :
    tokenize "v2" = ["v"] ∧ ¬ tokenize "v2" = [] := by
  exact ⟨by decide, by decide⟩

/-- C2 (amended): the normalization used on post text (and inside
`raw_words`/`extract_phrase`) lowercases, then tokenizes into the maximal
runs of ASCII letters; digits and punctuation act as separators whose
characters are dropped entirely.  But a lone letter next to a digit
survives: `"v2"` contributes the token `"v"` (not nothing, and not
`"v","2"`). -/
theorem c2_normalization_amended :
    (∀ s : String,
      tokenize s = (maximalRuns (s.data.map Char.toLower)).map List.asString)
    ∧ (∀ filename : String,
      raw_words filename =
        (maximalRuns (((stripExt filename.data).map sepToSpace).map
          Char.toLower)).map List.asString)
    ∧ tokenize "v2" = ["v"] := by
  refine ⟨?_, ?_, by decide⟩
  · intro s
    rw [tokenize, findTokens_eq_maximalRuns]
  · intro filename
    rw [raw_words, findTokens_eq_maximalRuns]

/-- C6 counterexample: `extract_phrase` is not idempotent under repeated
normalization on every identifier: when the extracted phrase itself starts
with a `"bufo"` token, re-extraction strips a second one. -/
theorem c6_counterexample :
    extract_phrase "bufo-bufo-a" = ["bufo", "a"]
    ∧ extract_phrase (joinSpace (extract_phrase "bufo-bufo-a")) = ["a"]
    ∧ ¬ extract_phrase (joinSpace (extract_phrase "bufo-bufo-a"))
        = extract_phrase "bufo-bufo-a" := by
  exact ⟨by decide, by decide, by decide⟩

/-- C6 (amended): `extract_phrase` strips exactly one leading `"bufo"`
token, the concrete example of the spec holds, and re-normalization is the
identity for every identifier whose extracted phrase does not itself begin
with a `"bufo"` token. -/
theorem c6_extract_phrase_amended (filename : String)
    (h : (extract_phrase filename).head? ≠ some "bufo") :
    extract_phrase (joinSpace (extract_phrase filename))
      = extract_phrase filename
    ∧ (∀ rest, raw_words filename = "bufo" :: rest →
        extract_phrase filename = rest)
    ∧ extract_phrase "bufo-what-have-you-done.png"
        = ["what", "have", "you", "done"] := by
  refine ⟨?_, ?_, by decide⟩
  · have hprops : ∀ w ∈ extract_phrase filename,
        w.data ≠ [] ∧ ∀ c ∈ w.data, isLowerAlpha c = true :=
      fun w hw => raw_words_props filename w (extract_phrase_sub filename w hw)
    have hraw : raw_words (joinSpace (extract_phrase filename))
        = extract_phrase filename := raw_words_joinSpace _ hprops
    cases hep : extract_phrase filename with
    | nil =>
      rw [hep] at hraw
      exact extract_phrase_nil _ hraw
    | cons w rest =>
      rw [hep] at hraw h
      have hw : ¬ w = "bufo" := by
        intro hwb
        exact h (by rw [hwb]; rfl)
      rw [extract_phrase_cons _ w rest hraw, if_neg hw]
  · intro rest hrw
    rw [extract_phrase_cons filename "bufo" rest hrw, if_pos rfl]

/-- C6 witness: the amended idempotence at the concrete identifier of the
spec. -/
theorem c6_extract_phrase_amended_witness :
    extract_phrase (joinSpace (extract_phrase "bufo-what-have-you-done.png"))
      = extract_phrase "bufo-what-have-you-done.png" :=
  (c6_extract_phrase_amended "bufo-what-have-you-done.png" (by decide)).1

/-- C7: `find_match` returns `none` both when the post text tokenizes to
fewer than `min_words` letter tokens and when no indexed phrase occurs as a
contiguous token run in the text. -/
theorem c7_no_match_cases (catalog : List Bufo) (mw : Nat) (text : String) :
    ((tokenize text).length < mw →
      (BufoMatcher.init catalog mw).find_match text = none)
    ∧ ((∀ bp ∈ (BufoMatcher.init catalog mw).bufos,
        contains_phrase (tokenize text) bp.2 = false) →
      (BufoMatcher.init catalog mw).find_match text = none) := by
  constructor
  · intro h
    rw [find_match_eq, init_min_words, if_pos h]
  · intro h
    rw [find_match_eq, init_min_words]
    by_cases hlen : (tokenize text).length < mw
    · rw [if_pos hlen]
    · rw [if_neg hlen]
      have hnone : (BufoMatcher.init catalog mw).bufos.find?
          (fun bp => contains_phrase (tokenize text) bp.2) = none := by
        rw [List.find?_eq_none]
        intro x hx
        simp [h x hx]
      rw [hnone]

/-- C7 witness: a two-token post, and a post containing all four phrase
words non-contiguously, both rejected. -/
theorem c7_no_match_cases_witness :
    (BufoMatcher.init [⟨"bufo-what-have-you-done", "u1"⟩] 4).find_match
      "lol nice" = none
    ∧ (BufoMatcher.init [⟨"bufo-what-have-you-done", "u1"⟩] 4).find_match
      "what have things you really done already ok" = none :=
  ⟨(c7_no_match_cases [⟨"bufo-what-have-you-done", "u1"⟩] 4 "lol nice").1
      (by decide),
   (c7_no_match_cases [⟨"bufo-what-have-you-done", "u1"⟩] 4
      "what have things you really done already ok").2 (by decide)⟩

/-- C8: every `(bufo, phrase)` pair held by the index satisfies
`min_words ≤ phrase.length`; shorter phrases are excluded at construction,
and the index is a pure function of the catalog (rebuilt wholesale per
load, never mutated). -/
theorem c8_index_min_words (catalog : List Bufo) (mw : Nat) :
    ∀ bp ∈ (BufoMatcher.init catalog mw).bufos, mw ≤ bp.2.length := by
  intro bp hbp
  rw [BufoMatcher.init, List.mem_filterMap] at hbp
  obtain ⟨b, _, heq⟩ := hbp
  by_cases hlen : mw ≤ (extract_phrase b.name).length
  · rw [if_pos hlen] at heq
    cases heq
    exact hlen
  · rw [if_neg hlen] at heq
    cases heq

/-- C8 witness: the invariant evaluated on a concrete index member. -/
theorem c8_index_min_words_witness :
    4 ≤ ((⟨⟨"bufo-what-have-you-done", "u1"⟩,
      ["what", "have", "you", "done"]⟩ : Bufo × List String)).2.length :=
  c8_index_min_words [⟨"bufo-what-have-you-done", "u1"⟩] 4
    ⟨⟨"bufo-what-have-you-done", "u1"⟩, ["what", "have", "you", "done"]⟩
    (by decide)

theorem length_spaceToHyphen (s : String) : (spaceToHyphen s).length = s.length :=
  List.length_map s.data _

theorem length_publish_alt (s : String) : (publish_alt s).length = s.length :=
  List.length_map s.data _

/-- C3 (code bug): the reconciliation never round-trips.  The publish path
sets the alt text to the name with hyphens replaced by spaces; the refresh
path re-hyphens the alt text and appends a guessed `".png"`/`".gif"`, so
every candidate is four characters longer than the name itself and the
refreshed set can never contain the published image name — a refresh inside
the cooldown window drops the just-published image from cooldown instead of
keeping it. -/
theorem c3_cooldown_roundtrip_fails :
    (∀ (name : String) (t cutoff : Int),
      name ∉ get_recent_bufo_names
        [⟨.ts t, some ⟨[⟨publish_alt name⟩]⟩⟩] cutoff)
    ∧ get_recent_bufo_names
        [⟨.ts 1000, some ⟨[⟨publish_alt "bufo-what-have-you-done"⟩]⟩⟩] 0
      = ["bufo-what-have-you-done.png", "bufo-what-have-you-done.gif"]
    ∧ "bufo-what-have-you-done" ∉ get_recent_bufo_names
        [⟨.ts 1000, some ⟨[⟨publish_alt "bufo-what-have-you-done"⟩]⟩⟩] 0 := by
  refine ⟨?_, by decide, by decide⟩
  intro name t cutoff hmem
  have hpng : ¬ name = spaceToHyphen (publish_alt name) ++ ".png" := by
    intro h
    have hl := congrArg String.length h
    rw [String.length_append, length_spaceToHyphen, length_publish_alt] at hl
    simp at hl
    exact absurd hl (by decide)
  have hgif : ¬ name = spaceToHyphen (publish_alt name) ++ ".gif" := by
    intro h
    have hl := congrArg String.length h
    rw [String.length_append, length_spaceToHyphen, length_publish_alt] at hl
    simp at hl
    exact absurd hl (by decide)
  by_cases ht : t < cutoff
  · simp [get_recent_bufo_names, ht] at hmem
  · by_cases halt : publish_alt name = ""
    · simp [get_recent_bufo_names, ht, collect_alt_candidates, halt] at hmem
    · simp [get_recent_bufo_names, ht, collect_alt_candidates, halt] at hmem
      rcases hmem with h | h
      · exact hpng h
      · exact hgif h

theorem processMessage_accept_inv (d : MessageData) (p : Post)
    (h : processMessage (.obj d) = .accept p) :
    d.kind = some "commit"
    ∧ ∃ commit : CommitData, d.commit = .obj commit
      ∧ commit.operation = some "create"
      ∧ ∃ record : RecordData, commit.record = .obj record
        ∧ record.text.getD "" = p.text
        ∧ ¬ p.text = "" := by
  simp only [processMessage] at h
  split_ifs at h with h1
  cases hc : d.commit with
  | absent =>
    rw [hc] at h
    simp [CommitVal.asObj, emptyCommit] at h
  | notObj =>
    rw [hc] at h
    simp [CommitVal.asObj] at h
  | obj commit =>
    rw [hc] at h
    simp only [CommitVal.asObj] at h
    split_ifs at h with h2
    cases hr : commit.record with
    | absent =>
      rw [hr] at h
      simp [RecordVal.asObj, emptyRecord] at h
    | notObj =>
      rw [hr] at h
      simp [RecordVal.asObj] at h
    | obj record =>
      rw [hr] at h
      simp only [RecordVal.asObj] at h
      split_ifs at h with h3
      rw [ne_eq, not_not] at h1 h2
      cases h
      exact ⟨h1, commit, rfl, h2, record, hr, rfl, h3⟩

theorem stream_accepted_mem (msgs : List RawMessage) (p : Post) :
    p ∈ stream_accepted msgs → ∃ m ∈ msgs, processMessage m = .accept p := by
  induction msgs with
  | nil => intro hp; cases hp
  | cons msg rest ih =>
    intro hp
    rw [stream_accepted] at hp
    cases hm : processMessage msg with
    | skip =>
      rw [hm] at hp
      obtain ⟨m, hmem, hacc⟩ := ih hp
      exact ⟨m, List.mem_cons_of_mem msg hmem, hacc⟩
    | accept q =>
      rw [hm] at hp
      have hp2 : p ∈ q :: stream_accepted rest := hp
      rcases List.mem_cons.mp hp2 with h | h
      · subst h
        exact ⟨msg, List.mem_cons_self msg rest, hm⟩
      · obtain ⟨m, hmem, hacc⟩ := ih h
        exact ⟨m, List.mem_cons_of_mem msg hmem, hacc⟩
    | raise =>
      rw [hm] at hp
      have hp2 : p ∈ ([] : List Post) := hp
      cases hp2

/-- C4 counterexample: a payload that parses but is ill-shaped — here
`{"kind":"commit","commit":null}` — is not silently discarded: the
`commit.get` call raises an `AttributeError` that the
`json.JSONDecodeError`-only handler does not catch, so processing raises
instead of skipping, and a valid create later in the same connection is
lost; after an invalid-JSON frame, by contrast, the sequence does continue
with the next valid message. -/
theorem c4_counterexample :
    processMessage (.obj ⟨some "commit", .notObj, some "d1"⟩) = .raise
    ∧ ¬ processMessage (.obj ⟨some "commit", .notObj, some "d1"⟩) = .skip
    ∧ stream_accepted
        [.obj ⟨some "commit", .notObj, some "d1"⟩,
          .obj ⟨some "commit",
            .obj ⟨some "create", some "r2", some "app.bsky.feed.post",
              .obj ⟨some "hi"⟩⟩, some "d2"⟩]
      = []
    ∧ stream_accepted
        [.decodeError "not json",
          .obj ⟨some "commit",
            .obj ⟨some "create", some "r2", some "app.bsky.feed.post",
              .obj ⟨some "hi"⟩⟩, some "d2"⟩]
      = [⟨"d2", "r2", "hi"⟩] := by
  exact ⟨rfl, by decide, rfl, rfl⟩

/-- C4 (amended): the accepted-event sequence contains only commits of
operation `create` with non-empty text — within the posts collection, which
the subscription URL restricts delivery to — and a frame that fails JSON
decoding is skipped in place, the sequence continuing with the next
message; but a payload that decodes to a non-object, or whose `commit` or
`record` field holds a non-object value such as `null`, raises an uncaught
`AttributeError` that escapes the `json.JSONDecodeError`-only handler and
tears the connection down — the remaining frames of that connection are
lost — rather than only that one message being skipped. -/
theorem c4_stream_filter_amended (msgs : List RawMessage)
    (hcoll : ∀ (d : MessageData) (commit : CommitData),
      RawMessage.obj d ∈ msgs → d.commit = .obj commit →
      commit.collection = some "app.bsky.feed.post") :
    (∀ p ∈ stream_accepted msgs,
      ∃ (d : MessageData) (commit : CommitData) (record : RecordData),
        RawMessage.obj d ∈ msgs
        ∧ d.kind = some "commit"
        ∧ d.commit = .obj commit
        ∧ commit.collection = some "app.bsky.feed.post"
        ∧ commit.operation = some "create"
        ∧ commit.record = .obj record
        ∧ record.text.getD "" = p.text
        ∧ ¬ p.text = ""
        ∧ processMessage (.obj d) = .accept p)
    ∧ (∀ (e : String) (rest : List RawMessage),
        stream_accepted (.decodeError e :: rest) = stream_accepted rest)
    ∧ (∀ (m : RawMessage) (rest : List RawMessage),
        processMessage m = .raise → stream_accepted (m :: rest) = [])
    ∧ processMessage .notObj = .raise
    ∧ (∀ d : MessageData, d.kind = some "commit" → d.commit = .notObj →
        processMessage (.obj d) = .raise) := by
  refine ⟨?_, ?_, ?_, rfl, ?_⟩
  · intro p hp
    obtain ⟨m, hmem, hacc⟩ := stream_accepted_mem msgs p hp
    cases m with
    | decodeError e => simp [processMessage] at hacc
    | notObj => simp [processMessage] at hacc
    | obj d =>
      obtain ⟨h1, commit, hc, h2, record, hr, h3, h4⟩ :=
        processMessage_accept_inv d p hacc
      exact ⟨d, commit, record, hmem, h1, hc, hcoll d commit hmem hc, h2, hr,
        h3, h4, hacc⟩
  · intro e rest
    rfl
  · intro m rest hm
    rw [stream_accepted, hm]
  · intro d h1 h2
    simp [processMessage, h1, h2, CommitVal.asObj]

/-- C4 witness: one connection delivering a well-shaped delete, an
invalid-JSON frame and a well-shaped create: the delete is filtered, the
parse failure skipped in place, and only the create is accepted. -/
theorem c4_stream_filter_amended_witness :
    (∀ p ∈ stream_accepted
        [.obj ⟨some "commit",
            .obj ⟨some "delete", some "r1", some "app.bsky.feed.post",
              .obj ⟨some "bye"⟩⟩, some "d1"⟩,
          .decodeError "not json",
          .obj ⟨some "commit",
            .obj ⟨some "create", some "r2", some "app.bsky.feed.post",
              .obj ⟨some "hi"⟩⟩, some "d2"⟩],
      ∃ (d : MessageData) (commit : CommitData) (record : RecordData),
        RawMessage.obj d ∈
          [.obj ⟨some "commit",
              .obj ⟨some "delete", some "r1", some "app.bsky.feed.post",
                .obj ⟨some "bye"⟩⟩, some "d1"⟩,
            .decodeError "not json",
            .obj ⟨some "commit",
              .obj ⟨some "create", some "r2", some "app.bsky.feed.post",
                .obj ⟨some "hi"⟩⟩, some "d2"⟩]
        ∧ d.kind = some "commit"
        ∧ d.commit = .obj commit
        ∧ commit.collection = some "app.bsky.feed.post"
        ∧ commit.operation = some "create"
        ∧ commit.record = .obj record
        ∧ record.text.getD "" = p.text
        ∧ ¬ p.text = ""
        ∧ processMessage (.obj d) = .accept p)
    ∧ (∀ (e : String) (rest : List RawMessage),
        stream_accepted (.decodeError e :: rest) = stream_accepted rest)
    ∧ (∀ (m : RawMessage) (rest : List RawMessage),
        processMessage m = .raise → stream_accepted (m :: rest) = [])
    ∧ processMessage .notObj = .raise
    ∧ (∀ d : MessageData, d.kind = some "commit" → d.commit = .notObj →
        processMessage (.obj d) = .raise) :=
  c4_stream_filter_amended
    [.obj ⟨some "commit",
        .obj ⟨some "delete", some "r1", some "app.bsky.feed.post",
          .obj ⟨some "bye"⟩⟩, some "d1"⟩,
      .decodeError "not json",
      .obj ⟨some "commit",
        .obj ⟨some "create", some "r2", some "app.bsky.feed.post",
          .obj ⟨some "hi"⟩⟩, some "d2"⟩]
    (by
      intro d commit hd hc
      simp only [List.mem_cons, List.not_mem_nil, or_false] at hd
      rcases hd with h | h | h
      · cases h; cases hc; rfl
      · cases h
      · cases h; cases hc; rfl)

/-- C9: the stream consumer never stops: every state has a successor, every
transport failure (from `connecting` or `connected`) lands in
`disconnected`, the only exit from `disconnected` is back to `connecting`
after the fixed 5-second sleep, and an explicit infinite run witnesses that
executions are unbounded. -/
theorem c9_reconnect_forever :
    (∀ s : StreamState, ∃ t, stream_step s t)
    ∧ stream_step .connecting .disconnected
    ∧ stream_step .connected .disconnected
    ∧ (∀ t, stream_step .disconnected t → t = .connecting)
    ∧ reconnect_delay_s = 5
    ∧ stream_run 0 = .disconnected
    ∧ ∀ n, stream_step (stream_run n) (stream_run (n + 1)) := by
  refine ⟨?_, .connect_fail, .recv_fail, ?_, rfl, rfl, ?_⟩
  · intro s
    cases s with
    | disconnected => exact ⟨.connecting, .reconnect⟩
    | connecting => exact ⟨.connected, .connect_ok⟩
    | connected => exact ⟨.connected, .recv (.decodeError "") (by decide)⟩
  · intro t h
    cases h
    rfl
  · intro n
    match n with
    | 0 => exact .reconnect
    | 1 => exact .connect_ok
    | n + 2 => exact .recv (.decodeError "") (by decide)

/-- C9 witness: the inversion conjunct instantiated at the one transition
that exists out of `disconnected`. -/
theorem c9_reconnect_forever_witness :
    (∃ t, stream_step .disconnected t)
    ∧ StreamState.connecting = StreamState.connecting :=
  ⟨c9_reconnect_forever.1 .disconnected,
   c9_reconnect_forever.2.2.2.1 .connecting stream_step.reconnect⟩

theorem run_events_nil (enabled : Bool) (matcher : BufoMatcher)
    (env : PublishEnv) (st : BotState) :
    run_events enabled matcher env st [] = st :=
  rfl

theorem run_events_cons (enabled : Bool) (matcher : BufoMatcher)
    (env : PublishEnv) (st : BotState) (ev : BotEvent) (evs : List BotEvent) :
    run_events enabled matcher env st (ev :: evs)
      = run_events enabled matcher env
          (process_post enabled matcher env st ev.post ev.now ev.rr).1 evs :=
  rfl

theorem process_post_no_refresh (enabled : Bool) (matcher : BufoMatcher)
    (env : PublishEnv) (st : BotState) (post : Post) (now : Int)
    (rr : Finset String) (h : ¬ (300:Int) < now - st.last_refresh) :
    (process_post enabled matcher env st post now rr).1.last_refresh
        = st.last_refresh
    ∧ st.recent_bufos
        ⊆ (process_post enabled matcher env st post now rr).1.recent_bufos := by
  have hd : decide ((300:Int) < now - st.last_refresh) = false := decide_eq_false h
  cases hm : matcher.find_match post.text with
  | none => simp [process_post, hm]
  | some m =>
    cases enabled with
    | false => simp [process_post, hm]
    | true =>
      by_cases hmem : m.name ∈ st.recent_bufos
      · simp [process_post, hm, hd, hmem]
      · simp [process_post, hm, hd, hmem]

theorem process_post_publish_inv (enabled : Bool) (matcher : BufoMatcher)
    (env : PublishEnv) (st st₁ : BotState) (post : Post) (now : Int)
    (rr : Finset String) (name : String) (r : Except String PublishResult)
    (h : process_post enabled matcher env st post now rr
      = (st₁, .publish name r)) :
    enabled = true
    ∧ ∃ m : BufoMatch, matcher.find_match post.text = some m
      ∧ m.name = name
      ∧ st₁.recent_bufos = insert name
          (if decide ((300:Int) < now - st.last_refresh) then rr
            else st.recent_bufos)
      ∧ st₁.last_refresh =
          (if decide ((300:Int) < now - st.last_refresh) then now
            else st.last_refresh) := by
  cases hm : matcher.find_match post.text with
  | none => simp [process_post, hm] at h
  | some m =>
    cases enabled with
    | false => simp [process_post, hm] at h
    | true =>
      refine ⟨rfl, m, rfl, ?_⟩
      by_cases hmem : m.name ∈
          (if decide ((300:Int) < now - st.last_refresh) then rr
            else st.recent_bufos)
      · simp only [process_post, hm] at h
        rw [if_neg (by simp), if_pos hmem] at h
        rw [Prod.mk.injEq] at h
        exact absurd h.2 (by simp)
      · simp only [process_post, hm] at h
        rw [if_neg (by simp), if_neg hmem] at h
        rw [Prod.mk.injEq] at h
        obtain ⟨hst, hact⟩ := h
        simp only [BotAction.publish.injEq] at hact
        refine ⟨hact.1, ?_, ?_⟩
        · rw [← hst, ← hact.1]
        · rw [← hst]

theorem process_post_cooldown_skip (matcher : BufoMatcher) (env : PublishEnv)
    (st : BotState) (post : Post) (now : Int) (rr : Finset String)
    (m : BufoMatch) (hm : matcher.find_match post.text = some m)
    (hmem : m.name ∈ st.recent_bufos)
    (h : ¬ (300:Int) < now - st.last_refresh) :
    process_post true matcher env st post now rr = (st, .cooldownSkip m.name) := by
  have hd : decide ((300:Int) < now - st.last_refresh) = false := decide_eq_false h
  simp only [process_post, hm]
  rw [if_neg (by simp), hd]
  simp only [Bool.false_eq_true, if_false]
  rw [if_pos hmem]

theorem process_post_publish_eq (matcher : BufoMatcher) (env : PublishEnv)
    (st : BotState) (post : Post) (now : Int) (rr : Finset String)
    (m : BufoMatch) (hm : matcher.find_match post.text = some m)
    (hnc : m.name ∉ (if decide ((300:Int) < now - st.last_refresh) then rr
      else st.recent_bufos)) :
    process_post true matcher env st post now rr =
      (⟨insert m.name
          (if decide ((300:Int) < now - st.last_refresh) then rr
            else st.recent_bufos),
        if decide ((300:Int) < now - st.last_refresh) then now
          else st.last_refresh⟩,
       .publish m.name (quote_post_with_bufo env m)) := by
  simp only [process_post, hm]
  rw [if_neg (by simp), if_neg hnc]

theorem quote_post_with_bufo_total (env : PublishEnv) (m : BufoMatch) :
    ∃ res, quote_post_with_bufo env m = Except.ok res := by
  obtain ⟨f, u, rp, sp⟩ := env
  cases f with
  | error e => exact ⟨.failedFetch e, rfl⟩
  | ok _ =>
    cases u with
    | error e => exact ⟨.failedUpload e, rfl⟩
    | ok _ =>
      cases rp with
      | error e => exact ⟨.failedResolve e, rfl⟩
      | ok _ =>
        cases sp with
        | error e => exact ⟨.failedSend e, rfl⟩
        | ok _ => exact ⟨.published (publish_alt m.name), rfl⟩

/-- C5: the name inserted by the local `recent_bufos.add` right after a
publish attempt is in the new state; it stays in the cooldown set through
every later event processed without an intervening refresh (membership only
grows in such steps); and a second post matching the same image with no
refresh in between is suppressed as a cooldown skip that leaves the state
unchanged. -/
theorem c5_cooldown_persistence (enabled : Bool) (matcher : BufoMatcher)
    (env : PublishEnv) (st st₁ : BotState) (post : Post) (now : Int)
    (rr : Finset String) (name : String) (r : Except String PublishResult)
    (h1 : process_post enabled matcher env st post now rr
      = (st₁, .publish name r)) :
    name ∈ st₁.recent_bufos
    ∧ (∀ events : List BotEvent,
        (∀ ev ∈ events, ¬ (300:Int) < ev.now - st₁.last_refresh) →
        name ∈ (run_events enabled matcher env st₁ events).recent_bufos)
    ∧ (∀ (post₂ : Post) (now₂ : Int) (rr₂ : Finset String) (m₂ : BufoMatch),
        matcher.find_match post₂.text = some m₂ → m₂.name = name →
        ¬ (300:Int) < now₂ - st₁.last_refresh →
        process_post enabled matcher env st₁ post₂ now₂ rr₂
          = (st₁, .cooldownSkip name))
    ∧ ∀ (st' : BotState) (p : Post) (n : Int) (rr' : Finset String),
        ¬ (300:Int) < n - st'.last_refresh →
        st'.recent_bufos
          ⊆ (process_post enabled matcher env st' p n rr').1.recent_bufos := by
  obtain ⟨he, m, hm, hname, hrec, hlast⟩ :=
    process_post_publish_inv enabled matcher env st st₁ post now rr name r h1
  subst he
  have hmem : name ∈ st₁.recent_bufos := by
    rw [hrec]
    exact Finset.mem_insert_self name _
  refine ⟨hmem, ?_, ?_, ?_⟩
  · have persist : ∀ (events : List BotEvent) (s : BotState),
        name ∈ s.recent_bufos → s.last_refresh = st₁.last_refresh →
        (∀ ev ∈ events, ¬ (300:Int) < ev.now - st₁.last_refresh) →
        name ∈ (run_events true matcher env s events).recent_bufos := by
      intro events
      induction events with
      | nil => intro s hn _ _; exact hn
      | cons ev evs ih =>
        intro s hn hl hall
        rw [run_events_cons]
        have hnr : ¬ (300:Int) < ev.now - s.last_refresh := by
          rw [hl]
          exact hall ev (List.mem_cons_self ev evs)
        have hstep :=
          process_post_no_refresh true matcher env s ev.post ev.now ev.rr hnr
        exact ih _ (hstep.2 hn) (by rw [hstep.1, hl])
          (fun x hx => hall x (List.mem_cons_of_mem ev hx))
    intro events hall
    exact persist events st₁ hmem rfl hall
  · intro post₂ now₂ rr₂ m₂ hm₂ hname₂ hnr
    have hmem₂ : m₂.name ∈ st₁.recent_bufos := by
      rw [hname₂]
      exact hmem
    have hskip :=
      process_post_cooldown_skip matcher env st₁ post₂ now₂ rr₂ m₂ hm₂ hmem₂ hnr
    rw [hname₂] at hskip
    exact hskip
  · intro st' p n rr' hnr
    exact (process_post_no_refresh true matcher env st' p n rr' hnr).2

/-- C5 witness: publish at t=100 starting from the empty set, then the same
match again at t=200 (no refresh elapsed): the second is a cooldown skip. -/
theorem c5_cooldown_persistence_witness :
    "bufo-what-have-you-done" ∈
      (⟨{"bufo-what-have-you-done"}, 0⟩ : BotState).recent_bufos
    ∧ process_post true
        (BufoMatcher.init [⟨"bufo-what-have-you-done", "u1"⟩] 4)
        ⟨.ok (), .ok (), .ok (), .ok ()⟩
        ⟨{"bufo-what-have-you-done"}, 0⟩
        ⟨"d2", "r2", "ah what have you done buddy"⟩ 200 ∅
      = (⟨{"bufo-what-have-you-done"}, 0⟩,
          .cooldownSkip "bufo-what-have-you-done") := by
  have h := c5_cooldown_persistence true
    (BufoMatcher.init [⟨"bufo-what-have-you-done", "u1"⟩] 4)
    ⟨.ok (), .ok (), .ok (), .ok ()⟩
    ⟨∅, 0⟩ ⟨{"bufo-what-have-you-done"}, 0⟩
    ⟨"d", "r", "what have you done friend"⟩ 100 ∅
    "bufo-what-have-you-done"
    (.ok (.published "bufo what have you done"))
    (by decide)
  exact ⟨h.1,
    h.2.2.1 ⟨"d2", "r2", "ah what have you done buddy"⟩ 200 ∅
      ⟨"bufo-what-have-you-done", "u1", "what have you done"⟩
      (by decide) rfl (by decide)⟩

/-- C10: when the loop reaches its publish branch, the action records the
matched name together with whatever `quote_post_with_bufo` returned, and the
name is inserted into the local cooldown set; `quote_post_with_bufo` swallows
every stage failure and returns normally for every outcome environment —
including one where all four stages fail — so a completely failed publish
still puts the image on local cooldown. -/
theorem c10_record_after_failed_publish (enabled : Bool)
    (matcher : BufoMatcher) (env : PublishEnv) (st : BotState) (post : Post)
    (now : Int) (rr : Finset String) (m : BufoMatch)
    (hm : matcher.find_match post.text = some m)
    (he : enabled = true)
    (hnc : m.name ∉ (if decide ((300:Int) < now - st.last_refresh) then rr
      else st.recent_bufos)) :
    (process_post enabled matcher env st post now rr).2
        = .publish m.name (quote_post_with_bufo env m)
    ∧ m.name ∈ (process_post enabled matcher env st post now rr).1.recent_bufos
    ∧ ∀ env' : PublishEnv, ∃ res, quote_post_with_bufo env' m = Except.ok res := by
  subst he
  rw [process_post_publish_eq matcher env st post now rr m hm hnc]
  exact ⟨rfl, Finset.mem_insert_self m.name _,
    fun env' => quote_post_with_bufo_total env' m⟩

/-- C10 witness: every stage failing (image fetch, blob upload, post
resolution, final send) still ends with the name in the local set and no
exception escaping. -/
theorem c10_record_after_failed_publish_witness :
    (process_post true
        (BufoMatcher.init [⟨"bufo-what-have-you-done", "u1"⟩] 4)
        ⟨.error "f", .error "u", .error "r", .error "s"⟩
        ⟨∅, 0⟩ ⟨"d", "r", "what have you done friend"⟩ 100 ∅).2
      = .publish "bufo-what-have-you-done"
          (quote_post_with_bufo ⟨.error "f", .error "u", .error "r", .error "s"⟩
            ⟨"bufo-what-have-you-done", "u1", "what have you done"⟩)
    ∧ "bufo-what-have-you-done" ∈
        (process_post true
          (BufoMatcher.init [⟨"bufo-what-have-you-done", "u1"⟩] 4)
          ⟨.error "f", .error "u", .error "r", .error "s"⟩
          ⟨∅, 0⟩ ⟨"d", "r", "what have you done friend"⟩ 100 ∅).1.recent_bufos
    ∧ ∃ res, quote_post_with_bufo
        ⟨.error "f", .error "u", .error "r", .error "s"⟩
        ⟨"bufo-what-have-you-done", "u1", "what have you done"⟩
      = Except.ok res := by
  have h := c10_record_after_failed_publish true
    (BufoMatcher.init [⟨"bufo-what-have-you-done", "u1"⟩] 4)
    ⟨.error "f", .error "u", .error "r", .error "s"⟩
    ⟨∅, 0⟩ ⟨"d", "r", "what have you done friend"⟩ 100 ∅
    ⟨"bufo-what-have-you-done", "u1", "what have you done"⟩
    (by decide) rfl (by decide)
  exact ⟨h.1, h.2.1, h.2.2 ⟨.error "f", .error "u", .error "r", .error "s"⟩⟩

end BufoBot
